import Mathlib

/-!
Shallow embedding of `tensor2tensor/trax/layers/attention.py` and proofs about it.

Modelling conventions:
* A tensor axis holding abstract payload (a feature vector, a batch slice) is
  modelled by a type variable `α`; axes the code actually indexes are `List`s.
* numpy float scalars are modelled as `ℚ` (the claims under study never depend
  on rounding); the transcendental primitives (`sqrt`, `exp`, `logsumexp`) and
  the PRNG primitive `bernoulli` are abstract fields of a `NumOps` record.
* Fallible numpy operations (shape/broadcast errors, out-of-range indexing,
  Python exceptions) return `Option`/`Except`.
-/

namespace Attention

/-! ### CausalMask (attention.py lines 30-34)

`onp.tril(onp.ones((1, size, size)), k=0)`: a (1, size, size) array whose
entry (0, i, j) is 1 iff j ≤ i.  The mask is used for gating only, so the
0/1 float entries are modelled as `Bool`. -/

/-- The (size, size) lower-triangular block of `CausalMask`. -/
def CausalMaskMat (size : ℕ) : List (List Bool) :=
  (List.range size).map (fun i => (List.range size).map (fun j => decide (j ≤ i)))

/-- `CausalMask(x)` for `x.shape[axis] = size`: the tril block behind a
leading axis of length 1. -/
def CausalMask (size : ℕ) : List (List (List Bool)) :=
  [CausalMaskMat size]

/-- Number of `true` entries of a 2-D boolean mask. -/
def trueCount (m : List (List Bool)) : ℕ :=
  (m.map (fun r => r.count true)).sum

/-! ### PaddingMask / EncoderDecoderMask (attention.py lines 37-59)

`EncoderDecoderMask` reshapes the padding mask to (batch, 1, 1, enc_len) and
adds `np.zeros((1, 1, dec_len, 1))`; broadcasting produces a
(batch, 1, dec_len, enc_len) array with entry (b, 0, q, e) = pm[b][e] + 0.
The padding mask is modelled after the reshape as batch × enc_len (the two
singleton axes are implicit); the boolean mask is promoted to floats (`ℚ`)
by the addition exactly as numpy does.  The decoder input (batch, dec_len, d)
is modelled as batch × dec_len, its feature axis being unused. -/

def EncoderDecoderMask (padding_mask : List (List ℚ)) (decoder_input : List (List ℚ)) :
    List (List (List (List ℚ))) :=
  padding_mask.map (fun row =>
    [(List.replicate (decoder_input.headD []).length (0 : ℚ)).map
      (fun z => row.map (fun v => v + z))])

/-! ### ShiftRight (attention.py lines 255-274) -/

/-- Non-chunked branch, per batch row along axis 1: pad one zero time-step in
front (`np.pad` with `pad_widths[1] = (1, 0)`), then drop the last
(`padded[:, :-1]`).  A time step (a feature vector) is an abstract `α`. -/
def shiftRightRow [Zero α] (row : List α) : List α :=
  ((0 : α) :: row).dropLast

/-- Non-chunked `ShiftRight`, mapped over the batch axis. -/
def ShiftRight [Zero α] (x : List (List α)) : List (List α) :=
  x.map shiftRightRow

/-- Chunked branch loop body.  `last` carries `last_value`; each chunk is
prefixed with it (`np.concatenate([last_value[:, np.newaxis], chunk], axis=1)`)
and loses its last step (`padded_chunk[:, :-1]`); `last_value` becomes
`chunk[:, -1]`, which raises on an empty chunk (modelled as `none`). -/
def shiftRightChunkedGo [Zero α] (last : α) : List (List α) → Option (List (List α))
  | [] => some []
  | c :: cs =>
    match c.getLast? with
    | none => none
    | some lv => (shiftRightChunkedGo lv cs).map (fun r => ((last :: c).dropLast) :: r)

/-- Chunked `ShiftRight`.  `last_value` starts as `np.zeros_like(x[0][:, -1])`,
which raises on an empty chunk list (modelled as `none`). -/
def ShiftRightChunked [Zero α] (x : List (List α)) : Option (List (List α)) :=
  match x with
  | [] => none
  | _ :: _ => shiftRightChunkedGo (0 : α) x

/-- Re-split a flat sequence at the given chunk lengths (the spec's
"re-splitting at the original boundaries"). -/
def resplit : List ℕ → List α → List (List α)
  | [], _ => []
  | n :: ns, l => l.take n :: resplit ns (l.drop n)

/-- The spec's reference behaviour for the chunked shift: concatenate the
chunks, right-shift the concatenation (prefix a zero, drop the last element),
and re-split at the original chunk boundaries. -/
def shiftConcatResplit [Zero α] (x : List (List α)) : List (List α) :=
  resplit (x.map List.length) (((0 : α) :: x.flatten).dropLast)

/-! ### Helper lemmas -/

lemma count_range_le (i : ℕ) :
    ∀ n, ((List.range n).map (fun j => decide (j ≤ i))).count true = min (i + 1) n := by
  intro n
  induction n with
  | zero => simp
  | succ n ih =>
    rw [List.range_succ, List.map_append, List.count_append, ih]
    by_cases h : n ≤ i
    · simp [h]
      omega
    · simp [h]
      omega

lemma sum_causal_rows (n : ℕ) :
    2 * ((List.range n).map (fun i => i + 1)).sum = n * (n + 1) := by
  induction n with
  | zero => simp
  | succ n ih =>
    rw [List.range_succ, List.map_append, List.sum_append]
    calc 2 * (((List.range n).map (fun i => i + 1)).sum + ([n].map (fun i => i + 1)).sum)
        = 2 * ((List.range n).map (fun i => i + 1)).sum + 2 * (n + 1) := by
          simp
          ring
      _ = n * (n + 1) + 2 * (n + 1) := by rw [ih]
      _ = (n + 1) * (n + 1 + 1) := by ring

lemma trueCount_causalMat (n : ℕ) :
    trueCount (CausalMaskMat n) = n * (n + 1) / 2 := by
  have hmap : (CausalMaskMat n).map (fun r => r.count true)
      = (List.range n).map (fun i => i + 1) := by
    unfold CausalMaskMat
    rw [List.map_map]
    apply List.map_congr_left
    intro i hi
    have : i < n := List.mem_range.mp hi
    simp only [Function.comp]
    rw [count_range_le]
    omega
  have h2 := sum_causal_rows n
  unfold trueCount
  rw [hmap]
  omega

/-! ### C7 -/

/-- C7: for every n ≥ 1, `CausalMask(n)` has shape (1, n, n), entry (i, j) is
true iff j ≤ i, it has exactly n(n+1)/2 true entries, and `CausalMask 4` is
the concrete lower-triangular 4×4 matrix. -/
theorem causalMask_spec (n : ℕ) (_hn : 1 ≤ n) :
    (CausalMask n).length = 1 ∧
    (CausalMaskMat n).length = n ∧
    (∀ r ∈ CausalMaskMat n, r.length = n) ∧
    (∀ i j, i < n → j < n →
      ((CausalMaskMat n).getD i []).getD j false = decide (j ≤ i)) ∧
    trueCount (CausalMaskMat n) = n * (n + 1) / 2 ∧
    CausalMask 4 = [[[true, false, false, false], [true, true, false, false],
      [true, true, true, false], [true, true, true, true]]] := by
  refine ⟨rfl, by simp [CausalMaskMat], ?_, ?_, trueCount_causalMat n, by decide⟩
  · intro r hr
    unfold CausalMaskMat at hr
    obtain ⟨i, _, rfl⟩ := List.mem_map.mp hr
    simp
  · intro i j hi hj
    unfold CausalMaskMat
    simp [List.getD_eq_getElem?_getD, List.getElem?_range, hi, hj]

/-- Witness for C7 at n = 4. -/
theorem causalMask_spec_witness :
    (CausalMask 4).length = 1 ∧
    (CausalMaskMat 4).length = 4 ∧
    (∀ r ∈ CausalMaskMat 4, r.length = 4) ∧
    (∀ i j, i < 4 → j < 4 →
      ((CausalMaskMat 4).getD i []).getD j false = decide (j ≤ i)) ∧
    trueCount (CausalMaskMat 4) = 4 * (4 + 1) / 2 ∧
    CausalMask 4 = [[[true, false, false, false], [true, true, false, false],
      [true, true, true, false], [true, true, true, true]]] :=
  causalMask_spec 4 (by decide)

/-! ### C8: non-chunked ShiftRight -/

lemma shiftRightRow_length [Zero α] (row : List α) :
    (shiftRightRow row).length = row.length := by
  simp [shiftRightRow]

lemma shiftRightRow_getD [Zero α] (row : List α) (i : ℕ) (hi : i < row.length) :
    (shiftRightRow row).getD i (0 : α) =
      if i = 0 then (0 : α) else row.getD (i - 1) (0 : α) := by
  unfold shiftRightRow
  rw [List.dropLast_eq_take, List.getD_eq_getElem?_getD, List.getElem?_take]
  simp only [List.length_cons, Nat.add_sub_cancel]
  rw [if_pos hi]
  cases i with
  | zero => simp
  | succ k => simp [List.getD_eq_getElem?_getD]

/-- C8: for every non-chunked input of shape (batch, L, feature) with L ≥ 1,
`ShiftRight` preserves the shape, puts the zero vector at time-step 0, and
moves `input[:, i-1, :]` to `output[:, i, :]` for 1 ≤ i < L. -/
theorem shiftRight_spec [Zero α] (x : List (List α)) (L : ℕ) (hL : 1 ≤ L)
    (hreg : ∀ r ∈ x, r.length = L) :
    (ShiftRight x).length = x.length ∧
    (∀ r ∈ ShiftRight x, r.length = L) ∧
    (∀ b, b < x.length → ((ShiftRight x).getD b []).getD 0 (0 : α) = 0) ∧
    (∀ b i, b < x.length → 1 ≤ i → i < L →
      ((ShiftRight x).getD b []).getD i (0 : α) = (x.getD b []).getD (i - 1) (0 : α)) := by
  have hgetD : ∀ b, b < x.length → x.getD b [] ∈ x := by
    intro b hb
    rw [List.getD_eq_getElem?_getD, List.getElem?_eq_getElem hb]
    exact List.getElem_mem hb
  have hrow : ∀ b, b < x.length → (ShiftRight x).getD b [] = shiftRightRow (x.getD b []) := by
    intro b hb
    unfold ShiftRight
    rw [List.getD_eq_getElem?_getD, List.getElem?_map, List.getElem?_eq_getElem hb,
      List.getD_eq_getElem?_getD, List.getElem?_eq_getElem hb]
    rfl
  refine ⟨by simp [ShiftRight], ?_, ?_, ?_⟩
  · intro r hr
    obtain ⟨row, hrowm, rfl⟩ := List.mem_map.mp hr
    rw [shiftRightRow_length]
    exact hreg _ hrowm
  · intro b hb
    have hlen : (x.getD b []).length = L := hreg _ (hgetD b hb)
    rw [hrow b hb, shiftRightRow_getD _ 0 (by omega)]
    simp
  · intro b i hb h1 hiL
    have hlen : (x.getD b []).length = L := hreg _ (hgetD b hb)
    rw [hrow b hb, shiftRightRow_getD _ i (by omega)]
    rw [if_neg (by omega)]

/-- Witness for C8 on a concrete batch of one row of length 3. -/
theorem shiftRight_spec_witness :
    (1 ≤ 3 ∧ ∀ r ∈ ([[(1 : ℚ), 2, 3]] : List (List ℚ)), r.length = 3) ∧
    ((ShiftRight [[(1 : ℚ), 2, 3]]).length = ([[(1 : ℚ), 2, 3]] : List (List ℚ)).length ∧
    (∀ r ∈ ShiftRight [[(1 : ℚ), 2, 3]], r.length = 3) ∧
    (∀ b, b < ([[(1 : ℚ), 2, 3]] : List (List ℚ)).length →
      ((ShiftRight [[(1 : ℚ), 2, 3]]).getD b []).getD 0 (0 : ℚ) = 0) ∧
    (∀ b i, b < ([[(1 : ℚ), 2, 3]] : List (List ℚ)).length → 1 ≤ i → i < 3 →
      ((ShiftRight [[(1 : ℚ), 2, 3]]).getD b []).getD i (0 : ℚ) =
        (([[(1 : ℚ), 2, 3]] : List (List ℚ)).getD b []).getD (i - 1) (0 : ℚ))) :=
  ⟨⟨by decide, by simp⟩, shiftRight_spec [[(1 : ℚ), 2, 3]] 3 (by decide) (by simp)⟩

/-! ### C9: EncoderDecoderMask -/

/-- C9: `EncoderDecoderMask` replicates the padding mask across all
`decoder_length` query positions: batch entry b is the single-heads-slice
list holding `decoder_length` copies of the padding-mask row. -/
theorem encoderDecoderMask_spec (pm : List (List ℚ)) (dec : List (List ℚ)) (dlen : ℕ)
    (hd : (dec.headD []).length = dlen) :
    EncoderDecoderMask pm dec = pm.map (fun row => [List.replicate dlen row]) ∧
    (∀ b q, b < pm.length → q < dlen →
      (((EncoderDecoderMask pm dec).getD b []).getD 0 []).getD q [] = pm.getD b []) := by
  have hmain : EncoderDecoderMask pm dec = pm.map (fun row => [List.replicate dlen row]) := by
    subst hd
    unfold EncoderDecoderMask
    simp [List.map_replicate]
  refine ⟨hmain, ?_⟩
  intro b q hb hq
  rw [hmain]
  simp [List.getD_eq_getElem?_getD, List.getElem?_map, List.getElem?_eq_getElem hb,
    List.getElem?_replicate, hq]

/-- Witness for C9: padding mask (1, 5) with one padded position, dlen = 3. -/
theorem encoderDecoderMask_spec_witness :
    (([[(1 : ℚ), 1, 0, 1, 1], [0, 0, 0]] : List (List ℚ)).headD [] |>.length) = 5 ∧
    (EncoderDecoderMask [[(1 : ℚ), 0, 1, 1, 1]] [[(1 : ℚ), 1, 0, 1, 1], [0, 0, 0]] =
      ([[(1 : ℚ), 0, 1, 1, 1]] : List (List ℚ)).map (fun row => [List.replicate 5 row]) ∧
    (∀ b q, b < ([[(1 : ℚ), 0, 1, 1, 1]] : List (List ℚ)).length → q < 5 →
      (((EncoderDecoderMask [[(1 : ℚ), 0, 1, 1, 1]]
        [[(1 : ℚ), 1, 0, 1, 1], [0, 0, 0]]).getD b []).getD 0 []).getD q []
        = ([[(1 : ℚ), 0, 1, 1, 1]] : List (List ℚ)).getD b [])) :=
  ⟨by decide, encoderDecoderMask_spec [[(1 : ℚ), 0, 1, 1, 1]]
    [[(1 : ℚ), 1, 0, 1, 1], [0, 0, 0]] 5 (by decide)⟩

/-! ### C2: chunked ShiftRight vs shift-of-concatenation -/

lemma drop_length_sub_one (c : List α) (lv : α) (h : c.getLast? = some lv) :
    c.drop (c.length - 1) = [lv] := by
  induction c generalizing lv with
  | nil => simp at h
  | cons a t ih =>
    cases t with
    | nil =>
      simp only [List.getLast?_singleton, Option.some.injEq] at h
      simp [h]
    | cons b t2 =>
      rw [List.getLast?_cons_cons] at h
      have h3 := ih lv h
      simp only [List.length_cons, Nat.add_sub_cancel] at h3 ⊢
      simpa [List.drop_succ_cons] using h3

lemma shiftRightChunkedGo_eq [Zero α] (chunks : List (List α)) :
    ∀ last : α, (∀ c ∈ chunks, c ≠ []) →
    shiftRightChunkedGo last chunks =
      some (resplit (chunks.map List.length) ((last :: chunks.flatten).dropLast)) := by
  induction chunks with
  | nil =>
    intro last _
    simp [shiftRightChunkedGo, resplit]
  | cons c cs ih =>
    intro last h
    have hc : c ≠ [] := h c (List.mem_cons_self c cs)
    obtain ⟨lv, hlv⟩ : ∃ lv, c.getLast? = some lv := by
      cases hgl : c.getLast? with
      | none => exact absurd (List.getLast?_eq_none_iff.mp hgl) hc
      | some v => exact ⟨v, rfl⟩
    have hcs : ∀ y ∈ cs, y ≠ [] := fun y hy => h y (List.mem_cons_of_mem _ hy)
    obtain ⟨k, hk⟩ : ∃ k, c.length = k + 1 := by
      cases c with
      | nil => exact absurd rfl hc
      | cons a t => exact ⟨t.length, by simp⟩
    have hA : ((last :: (c ++ cs.flatten)).dropLast).take c.length = (last :: c).dropLast := by
      rw [List.dropLast_eq_take, List.take_take, List.dropLast_eq_take]
      have h1 : (last :: (c ++ cs.flatten)).length - 1 = c.length + cs.flatten.length := by
        simp
      have h2 : (last :: c).length - 1 = c.length := by simp
      rw [h1, h2]
      have h3 : min c.length (c.length + cs.flatten.length) = c.length := by omega
      rw [h3, hk, List.take_succ_cons, List.take_succ_cons,
        List.take_append_eq_append_take]
      have h4 : k - c.length = 0 := by omega
      rw [h4]
      simp
    have hB : ((last :: (c ++ cs.flatten)).dropLast).drop c.length
        = (lv :: cs.flatten).dropLast := by
      rw [List.dropLast_eq_take]
      have h1 : (last :: (c ++ cs.flatten)).length - 1 = c.length + cs.flatten.length := by
        simp
      rw [h1, List.drop_take]
      have h2 : c.length + cs.flatten.length - c.length = cs.flatten.length := by omega
      rw [h2, hk, List.drop_succ_cons, List.drop_append_eq_append_drop]
      have h4 : k - c.length = 0 := by omega
      rw [h4]
      have h5 : c.drop k = [lv] := by
        have h6 := drop_length_sub_one c lv hlv
        rwa [hk, Nat.add_sub_cancel] at h6
      rw [h5]
      simp [List.dropLast_eq_take]
    rw [shiftRightChunkedGo, hlv]
    show Option.map (fun r => (last :: c).dropLast :: r) (shiftRightChunkedGo lv cs)
      = some (resplit (List.map List.length (c :: cs)) ((last :: (c :: cs).flatten).dropLast))
    rw [ih lv hcs]
    simp only [Option.map_some']
    congr 1
    rw [List.map_cons, List.flatten_cons, resplit, hA, hB]

/-- C2: for every non-empty list of non-empty chunks, the chunked right-shift
equals right-shifting the concatenation of all chunks and re-splitting at the
original chunk boundaries. -/
theorem shiftRightChunked_eq_concat [Zero α] (x : List (List α))
    (hne : x ≠ []) (hchunks : ∀ c ∈ x, c ≠ []) :
    ShiftRightChunked x = some (shiftConcatResplit x) := by
  unfold ShiftRightChunked shiftConcatResplit
  cases x with
  | nil => exact absurd rfl hne
  | cons c cs => exact shiftRightChunkedGo_eq (c :: cs) 0 hchunks

/-- Witness for C2 on chunks of lengths [3, 2, 4] with distinct values. -/
theorem shiftRightChunked_eq_concat_witness :
    (([[(1 : ℚ), 2, 3], [4, 5], [6, 7, 8, 9]] : List (List ℚ)) ≠ [] ∧
      ∀ c ∈ ([[(1 : ℚ), 2, 3], [4, 5], [6, 7, 8, 9]] : List (List ℚ)), c ≠ []) ∧
    ShiftRightChunked [[(1 : ℚ), 2, 3], [4, 5], [6, 7, 8, 9]] =
      some (shiftConcatResplit [[(1 : ℚ), 2, 3], [4, 5], [6, 7, 8, 9]]) :=
  ⟨⟨by decide, by decide⟩,
    shiftRightChunked_eq_concat [[(1 : ℚ), 2, 3], [4, 5], [6, 7, 8, 9]]
      (by decide) (by decide)⟩

/-! ### PositionalEncoding apply (attention.py lines 80-93)

The sinusoidal table `params` has shape (1, max_len, feature_depth); the
leading singleton batch axis always broadcasts and is elided.  A time step
(a feature vector of depth d) is an abstract `α` with `+`. -/

/-- numpy broadcast addition of a table slice `s` to one sequence `row` along
the sequence axis: the lengths must match (elementwise add), or the slice must
have length 1 (replicated along the sequence); otherwise a broadcast error. -/
def bAddSeq [Add α] (s row : List α) : Option (List α) :=
  if s.length = row.length then some (List.zipWith (fun a b => a + b) row s)
  else
    match s with
    | [p] => some (row.map (fun a => a + p))
    | _ => none

/-- Non-chunked `PositionalEncoding`: `x + params[:, :symbol_size, :]` with
`symbol_size = np.shape(x)[1]`; numpy slicing clamps at the table length.
The batch axis of `x` is the outer list (the table's batch axis of size 1
broadcasts across it). -/
def PositionalEncoding [Add α] (params : List α) (x : List (List α)) :
    Option (List (List α)) :=
  let symbol_size := (x.headD []).length
  x.mapM (fun row => bAddSeq (params.take symbol_size) row)

/-- Chunked `PositionalEncoding`: chunks processed in order with the running
`offset`; a chunk of time-length n receives `params[:, offset:offset+n, :]`,
then `offset += n`.  The batch axis (pointwise broadcast) is elided, so one
chunk is its list of time steps. -/
def PositionalEncodingChunked [Add α] (params : List α) :
    List (List α) → ℕ → Option (List (List α))
  | [], _ => some []
  | chunk :: rest, offset => do
    let r ← bAddSeq ((params.drop offset).take chunk.length) chunk
    let rs ← PositionalEncodingChunked params rest (offset + chunk.length)
    pure (r :: rs)

/-- Cumulative time offset of chunk k: the total length of chunks 0..k-1. -/
def chunkOffset (chunks : List (List α)) (k : ℕ) : ℕ :=
  ((chunks.take k).map List.length).sum

/-! ### Helper lemmas for C5 / C6 -/

lemma mapM_some_of_all {β : Type u} {γ : Type v} {f : β → Option γ} {g : β → γ} :
    ∀ l : List β, (∀ b ∈ l, f b = some (g b)) → l.mapM f = some (l.map g) := by
  intro l
  induction l with
  | nil => intro _; rfl
  | cons a t ih =>
    intro h
    rw [List.mapM_cons, h a (List.mem_cons_self a t),
      ih (fun b hb => h b (List.mem_cons_of_mem _ hb))]
    rfl

lemma chunkOffset_cons_succ (c : List α) (cs : List (List α)) (k : ℕ) :
    chunkOffset (c :: cs) (k + 1) = c.length + chunkOffset cs k := by
  simp [chunkOffset, List.take_succ_cons]

lemma chunkOffset_succ (chunks : List (List α)) : ∀ k,
    chunkOffset chunks (k + 1) = chunkOffset chunks k + (chunks.getD k []).length := by
  induction chunks with
  | nil => intro k; simp [chunkOffset]
  | cons c cs ih =>
    intro k
    cases k with
    | zero => simp [chunkOffset, List.take_succ_cons]
    | succ k2 =>
      rw [chunkOffset_cons_succ, chunkOffset_cons_succ, ih k2]
      simp only [List.getD_cons_succ]
      omega

lemma posEncChunked_go [Add α] (params : List α) :
    ∀ (chunks : List (List α)) (off : ℕ),
    off + (chunks.map List.length).sum ≤ params.length →
    PositionalEncodingChunked params chunks off =
      some ((List.range chunks.length).map (fun k =>
        List.zipWith (fun a b => a + b) (chunks.getD k [])
          ((params.drop (off + chunkOffset chunks k)).take (chunks.getD k []).length))) := by
  intro chunks
  induction chunks with
  | nil => intro off _; rfl
  | cons c cs ih =>
    intro off hfit
    have hslice : ((params.drop off).take c.length).length = c.length := by
      simp at hfit ⊢
      omega
    have hadd : bAddSeq ((params.drop off).take c.length) c =
        some (List.zipWith (fun a b => a + b) c ((params.drop off).take c.length)) := by
      unfold bAddSeq
      rw [if_pos hslice]
    have hrest : off + c.length + (cs.map List.length).sum ≤ params.length := by
      simp at hfit
      omega
    rw [PositionalEncodingChunked, hadd, ih (off + c.length) hrest]
    show some _ = some _
    congr 1
    rw [List.length_cons, List.range_succ_eq_map, List.map_cons, List.map_map]
    congr 1
    apply List.map_congr_left
    intro k _
    simp only [Function.comp, List.getD_cons_succ, chunkOffset_cons_succ]
    rw [Nat.add_assoc]

/-! ### C5 -/

/-- C5: chunked positional encoding processes chunks in order with a running
offset starting at 0: chunk k receives input plus
`table[offset_k : offset_k + len_k]` where `offset_k` is the total length of
the preceding chunks, so consecutive chunks get consecutive, non-overlapping
slices (`offset_{k+1} = offset_k + len_k`). -/
theorem posEncChunked_spec [Add α] (params : List α) (chunks : List (List α))
    (hfit : (chunks.map List.length).sum ≤ params.length) :
    PositionalEncodingChunked params chunks 0 =
      some ((List.range chunks.length).map (fun k =>
        List.zipWith (fun a b => a + b) (chunks.getD k [])
          ((params.drop (chunkOffset chunks k)).take (chunks.getD k []).length))) ∧
    ∀ k, chunkOffset chunks (k + 1) = chunkOffset chunks k + (chunks.getD k []).length := by
  constructor
  · have h := posEncChunked_go params chunks 0 (by omega)
    simpa using h
  · exact chunkOffset_succ chunks

/-- Witness for C5: table of length 6, chunks of lengths [2, 3]. -/
theorem posEncChunked_spec_witness :
    ((([[(10 : ℚ), 20], [30, 40, 50]] : List (List ℚ)).map List.length).sum ≤
      ([(1 : ℚ), 2, 3, 4, 5, 6] : List ℚ).length) ∧
    (PositionalEncodingChunked [(1 : ℚ), 2, 3, 4, 5, 6] [[10, 20], [30, 40, 50]] 0 =
      some ((List.range ([[(10 : ℚ), 20], [30, 40, 50]] : List (List ℚ)).length).map (fun k =>
        List.zipWith (fun a b => a + b) (([[(10 : ℚ), 20], [30, 40, 50]] : List (List ℚ)).getD k [])
          ((([(1 : ℚ), 2, 3, 4, 5, 6] : List ℚ).drop
              (chunkOffset [[(10 : ℚ), 20], [30, 40, 50]] k)).take
            (([[(10 : ℚ), 20], [30, 40, 50]] : List (List ℚ)).getD k []).length))) ∧
    ∀ k, chunkOffset ([[(10 : ℚ), 20], [30, 40, 50]] : List (List ℚ)) (k + 1) =
      chunkOffset ([[(10 : ℚ), 20], [30, 40, 50]] : List (List ℚ)) k +
        (([[(10 : ℚ), 20], [30, 40, 50]] : List (List ℚ)).getD k []).length) :=
  ⟨by decide, posEncChunked_spec [(1 : ℚ), 2, 3, 4, 5, 6] [[10, 20], [30, 40, 50]] (by decide)⟩

/-! ### C6 -/

/-- C6 (amended): for a non-chunked input of uniform sequence length L,
`PositionalEncoding` returns `x + table[0:L]` when L fits into the table, and
fails with a broadcast error when L exceeds the table length — except in the
degenerate case of a length-1 table, which numpy broadcasting accepts. -/
theorem posEnc_nonchunked_spec [Add α] (params : List α) (x : List (List α)) (L : ℕ)
    (hx : x ≠ []) (hreg : ∀ r ∈ x, r.length = L) :
    (L ≤ params.length →
      PositionalEncoding params x =
        some (x.map (fun row => List.zipWith (fun a b => a + b) row (params.take L)))) ∧
    (params.length < L → params.length ≠ 1 → PositionalEncoding params x = none) := by
  obtain ⟨r0, t, rfl⟩ : ∃ r0 t, x = r0 :: t := by
    cases x with
    | nil => exact absurd rfl hx
    | cons a b => exact ⟨a, b, rfl⟩
  have hr0 : r0.length = L := hreg r0 (List.mem_cons_self r0 t)
  constructor
  · intro hfit
    unfold PositionalEncoding
    simp only [List.headD_cons, hr0]
    apply mapM_some_of_all
    intro row hrow
    have hrlen : row.length = L := hreg row hrow
    unfold bAddSeq
    rw [if_pos (by simp [hrlen]; omega)]
  · intro hgt hne1
    unfold PositionalEncoding
    simp only [List.headD_cons, hr0]
    have hslen : (params.take L).length = params.length := by
      simp
      omega
    have hnone : bAddSeq (params.take L) r0 = none := by
      unfold bAddSeq
      rw [if_neg (by omega)]
      cases hs2 : params.take L with
      | nil => rfl
      | cons p ps =>
        cases ps with
        | nil =>
          exfalso
          rw [hs2] at hslen
          simp at hslen
          omega
        | cons q qs => rfl
    rw [List.mapM_cons, hnone]
    rfl

/-- Counterexample to C6 as stated: with a table of max_len = 1 and a
non-chunked input of sequence length 2 > 1, the call does NOT fail — numpy
broadcasts the single table row across the sequence and returns an output. -/
theorem posEnc_nonchunked_counterexample :
    ([(1 : ℤ)] : List ℤ).length < 2 ∧
    PositionalEncoding [(1 : ℤ)] [[10, 20]] = some [[11, 21]] := by
  constructor
  · decide
  · rfl

/-- Witness for C6 (amended) on a table of length 3 and input of length 2. -/
theorem posEnc_nonchunked_spec_witness :
    (([[(10 : ℚ), 20]] : List (List ℚ)) ≠ [] ∧
      ∀ r ∈ ([[(10 : ℚ), 20]] : List (List ℚ)), r.length = 2) ∧
    ((2 ≤ ([(1 : ℚ), 2, 3] : List ℚ).length →
      PositionalEncoding [(1 : ℚ), 2, 3] [[10, 20]] =
        some (([[(10 : ℚ), 20]] : List (List ℚ)).map
          (fun row => List.zipWith (fun a b => a + b) row (([(1 : ℚ), 2, 3] : List ℚ).take 2)))) ∧
    (([(1 : ℚ), 2, 3] : List ℚ).length < 2 → ([(1 : ℚ), 2, 3] : List ℚ).length ≠ 1 →
      PositionalEncoding [(1 : ℚ), 2, 3] [[10, 20]] = none)) :=
  ⟨⟨by decide, by simp⟩,
    posEnc_nonchunked_spec [(1 : ℚ), 2, 3] [[10, 20]] 2 (by decide) (by simp)⟩

/-! ### DotProductAttention (attention.py lines 96-123)

One (seq_q, depth) × (seq_k, depth) matrix pair; the leading batch/head axes
of the batched call are orthogonal to the claims under study and are elided.
Scalars are `ℚ`; the transcendental primitives and the PRNG are abstract
fields of `NumOps` (no claim depends on their values). -/

/-- Abstract numeric primitives: `np.sqrt`, `np.exp`, `backend.logsumexp`
(row-wise, keepdims), and `backend.random.bernoulli(rng, rate, shape)`. -/
structure NumOps where
  sqrt : ℚ → ℚ
  exp : ℚ → ℚ
  logsumexp : List ℚ → ℚ
  bernoulli : ℕ → ℚ → ℕ → ℕ → List (List Bool)

/-- The `mode` argument. -/
inductive Mode where
  | train
  | eval
deriving DecidableEq

/-- Python exceptions the function can raise. -/
inductive AttnError where
  | invalidConfiguration
  | typeError
deriving DecidableEq

/-- Tensor computations of the function body, in statement order, recorded to
witness what has executed before an exception is raised. -/
inductive Step where
  | scores
  | masking
  | softmax
  | dropoutStep
  | output
deriving DecidableEq

/-- Dot product of two rows. -/
def dot (r c : List ℚ) : ℚ :=
  (List.zipWith (fun a b => a * b) r c).sum

/-- Transpose of a 2-D matrix (`np.swapaxes(-1, -2)` on the elided model). -/
def transposeM (m : List (List ℚ)) : List (List ℚ) :=
  (List.range (m.headD []).length).map (fun j => m.map (fun r => r.getD j 0))

/-- 2-D `np.matmul`. -/
def matmul (a b : List (List ℚ)) : List (List ℚ) :=
  a.map (fun ar => (transposeM b).map (fun bc => dot ar bc))

/-- Elementwise division of a matrix by a scalar. -/
def scaleDiv (m : List (List ℚ)) (s : ℚ) : List (List ℚ) :=
  m.map (fun r => r.map (fun v => v / s))

/-- `np.where(mask, dots, -1e9)`. -/
def maskWhere (mask : List (List Bool)) (d : List (List ℚ)) : List (List ℚ) :=
  List.zipWith
    (fun mr dr => List.zipWith (fun m v => if m then v else -1000000000) mr dr) mask d

/-- `np.exp(dots - backend.logsumexp(dots, axis=-1, keepdims=True))`. -/
def softmaxRows (ops : NumOps) (d : List (List ℚ)) : List (List ℚ) :=
  d.map (fun row => row.map (fun v => ops.exp (v - ops.logsumexp row)))

/-- Lines 120-121: sample a keep mask and rescale the kept weights. -/
def applyDropout (ops : NumOps) (rng : ℕ) (p : ℚ) (d : List (List ℚ)) : List (List ℚ) :=
  List.zipWith
    (fun kr dr => List.zipWith (fun keep v => if keep then v / (1 - p) else 0) kr dr)
    (ops.bernoulli rng (1 - p) d.length (d.headD []).length) d

/-- Python 3 semantics of `dropout >= 1.0` (line 117): comparing `None` with a
float raises TypeError; otherwise it is the numeric comparison. -/
def pyGeOne : Option ℚ → Except AttnError Bool
  | none => Except.error AttnError.typeError
  | some p => Except.ok (decide (1 ≤ p))

/-- Line 119: `dropout is not None and dropout > 0.0 and mode == 'train'`. -/
def dropoutBranch (dropout : Option ℚ) (mode : Mode) : Bool :=
  dropout.isSome && decide (0 < dropout.getD 0) && decide (mode = Mode.train)

/-- `DotProductAttention`, with the list of tensor computations that executed
(in statement order) alongside the result.  Mirrors lines 111-123: scores with
scaling, optional masking, softmax, the `dropout >= 1.0` check, the optional
dropout step, then the weighted sum. -/
def DotProductAttentionTrace (ops : NumOps) (query key value : List (List ℚ))
    (mask : Option (List (List Bool))) (dropout : Option ℚ) (mode : Mode) (rng : ℕ) :
    List Step × Except AttnError (List (List ℚ)) :=
  let depth := (query.headD []).length
  let dots0 := scaleDiv (matmul query (transposeM key)) (ops.sqrt (depth : ℚ))
  let dots1 := match mask with
    | some m => maskWhere m dots0
    | none => dots0
  let dots2 := softmaxRows ops dots1
  let tr := [Step.scores] ++ (if mask.isSome then [Step.masking] else []) ++ [Step.softmax]
  match pyGeOne dropout with
  | Except.error e => (tr, Except.error e)
  | Except.ok ge =>
    if ge then (tr, Except.error AttnError.invalidConfiguration)
    else if dropoutBranch dropout mode then
      (tr ++ [Step.dropoutStep, Step.output],
        Except.ok (matmul (applyDropout ops rng (dropout.getD 0) dots2) value))
    else (tr ++ [Step.output], Except.ok (matmul dots2 value))

/-- The returned value (or exception) of `DotProductAttention`. -/
def DotProductAttention (ops : NumOps) (query key value : List (List ℚ))
    (mask : Option (List (List Bool))) (dropout : Option ℚ) (mode : Mode) (rng : ℕ) :
    Except AttnError (List (List ℚ)) :=
  (DotProductAttentionTrace ops query key value mask dropout mode rng).2

/-- The same computation with no dropout step at all (lines 117-121 removed):
scores, optional masking, softmax, weighted sum. -/
def DotProductAttentionNoDrop (ops : NumOps) (query key value : List (List ℚ))
    (mask : Option (List (List Bool))) : List (List ℚ) :=
  let depth := (query.headD []).length
  let dots0 := scaleDiv (matmul query (transposeM key)) (ops.sqrt (depth : ℚ))
  let dots1 := match mask with
    | some m => maskWhere m dots0
    | none => dots0
  matmul (softmaxRows ops dots1) value

/-- A concrete instantiation of the abstract numeric primitives, used for
closed evaluations. -/
def testOps : NumOps where
  sqrt := fun x => x
  exp := fun x => x
  logsumexp := fun r => r.sum
  bernoulli := fun _ _ n m => List.replicate n (List.replicate m true)

/-! ### C1 -/

/-- C1 (amended): with dropout_rate ≥ 1.0 the call raises the
invalid-configuration ValueError and produces no output tensor, but only
after the scores, masking and softmax computations have executed: the raise
precedes the dropout step and the final weighted sum, not the whole tensor
computation. -/
theorem dropout_ge_one_raises (ops : NumOps) (query key value : List (List ℚ))
    (mask : Option (List (List Bool))) (p : ℚ) (mode : Mode) (rng : ℕ) (hp : 1 ≤ p) :
    DotProductAttention ops query key value mask (some p) mode rng =
      Except.error AttnError.invalidConfiguration ∧
    Step.scores ∈ (DotProductAttentionTrace ops query key value mask (some p) mode rng).1 ∧
    (mask.isSome = true →
      Step.masking ∈ (DotProductAttentionTrace ops query key value mask (some p) mode rng).1) ∧
    Step.softmax ∈ (DotProductAttentionTrace ops query key value mask (some p) mode rng).1 ∧
    Step.dropoutStep ∉ (DotProductAttentionTrace ops query key value mask (some p) mode rng).1 ∧
    Step.output ∉ (DotProductAttentionTrace ops query key value mask (some p) mode rng).1 := by
  have hpy : pyGeOne (some p) = Except.ok true := by
    show Except.ok (decide (1 ≤ p)) = Except.ok true
    rw [decide_eq_true hp]
  unfold DotProductAttention DotProductAttentionTrace
  cases mask with
  | none => simp [hpy]
  | some m => simp [hpy]

/-- Witness for C1 (amended) at dropout_rate = 2 with a mask. -/
theorem dropout_ge_one_raises_witness :
    (1 : ℚ) ≤ 2 ∧
    (DotProductAttention testOps [[1]] [[1]] [[1]] (some [[true]]) (some 2) Mode.train 0 =
      Except.error AttnError.invalidConfiguration ∧
    Step.scores ∈
      (DotProductAttentionTrace testOps [[1]] [[1]] [[1]] (some [[true]]) (some 2) Mode.train 0).1 ∧
    ((some [[true]] : Option (List (List Bool))).isSome = true →
      Step.masking ∈
        (DotProductAttentionTrace testOps [[1]] [[1]] [[1]] (some [[true]]) (some 2) Mode.train 0).1) ∧
    Step.softmax ∈
      (DotProductAttentionTrace testOps [[1]] [[1]] [[1]] (some [[true]]) (some 2) Mode.train 0).1 ∧
    Step.dropoutStep ∉
      (DotProductAttentionTrace testOps [[1]] [[1]] [[1]] (some [[true]]) (some 2) Mode.train 0).1 ∧
    Step.output ∉
      (DotProductAttentionTrace testOps [[1]] [[1]] [[1]] (some [[true]]) (some 2) Mode.train 0).1) :=
  ⟨by norm_num,
    dropout_ge_one_raises testOps [[1]] [[1]] [[1]] (some [[true]]) 2 Mode.train 0 (by norm_num)⟩

/-- Counterexample to C1 as stated: at a concrete call with dropout_rate = 1.0
the scores and softmax computations ARE performed before the error is raised,
so the error does not precede all tensor computation. -/
theorem dropout_ge_one_counterexample :
    (DotProductAttentionTrace testOps [[1]] [[1]] [[1]] none (some 1) Mode.train 0).1 =
      [Step.scores, Step.softmax] ∧
    (DotProductAttentionTrace testOps [[1]] [[1]] [[1]] none (some 1) Mode.train 0).2 =
      Except.error AttnError.invalidConfiguration := by
  have hpy : pyGeOne (some (1 : ℚ)) = Except.ok true := by
    show Except.ok (decide ((1 : ℚ) ≤ 1)) = Except.ok true
    rw [decide_eq_true le_rfl]
  unfold DotProductAttentionTrace
  simp only [hpy]
  exact ⟨rfl, rfl⟩

/-! ### C10 -/

/-- C10: a call with dropout = None raises (in Python 3, `None >= 1.0` on
line 117 is a TypeError) and never returns an attention result, in any mode —
even though line 119 tests `dropout is not None` as if None were an accepted
"no dropout" value. -/
theorem dropout_none_raises (ops : NumOps) (query key value : List (List ℚ))
    (mask : Option (List (List Bool))) (mode : Mode) (rng : ℕ) :
    DotProductAttention ops query key value mask none mode rng =
      Except.error AttnError.typeError := by
  unfold DotProductAttention DotProductAttentionTrace pyGeOne
  cases mask <;> rfl

/-! ### C4 -/

/-- C4 (amended): dropout is the identity on the attention weights when
dropout_rate = 0 in any mode, and for every dropout_rate < 1.0 in eval mode:
in these cases the returned output equals the output computed with no dropout
step at all, regardless of the rng. -/
theorem dropout_identity (ops : NumOps) (query key value : List (List ℚ))
    (mask : Option (List (List Bool))) (p : ℚ) (mode : Mode) (rng : ℕ)
    (h : p = 0 ∨ (mode = Mode.eval ∧ p < 1)) :
    DotProductAttention ops query key value mask (some p) mode rng =
      Except.ok (DotProductAttentionNoDrop ops query key value mask) := by
  have hlt : ¬ (1 : ℚ) ≤ p := by
    rcases h with h0 | ⟨_, hp⟩
    · rw [h0]; norm_num
    · linarith
  have hpy : pyGeOne (some p) = Except.ok false := by
    show Except.ok (decide (1 ≤ p)) = Except.ok false
    rw [decide_eq_false hlt]
  have hbr : dropoutBranch (some p) mode = false := by
    unfold dropoutBranch
    rcases h with h0 | ⟨hm, _⟩
    · simp [h0]
    · simp [hm]
  unfold DotProductAttention DotProductAttentionTrace DotProductAttentionNoDrop
  simp only [hpy, hbr]
  cases mask <;> rfl

/-- Witness for C4 (amended) at dropout_rate = 0 in train mode. -/
theorem dropout_identity_witness :
    ((0 : ℚ) = 0 ∨ (Mode.train = Mode.eval ∧ (0 : ℚ) < 1)) ∧
    DotProductAttention testOps [[1]] [[1]] [[1]] none (some 0) Mode.train 0 =
      Except.ok (DotProductAttentionNoDrop testOps [[1]] [[1]] [[1]] none) :=
  ⟨Or.inl rfl, dropout_identity testOps [[1]] [[1]] [[1]] none 0 Mode.train 0 (Or.inl rfl)⟩

/-- Counterexample to C4 as stated: dropout_rate = 1.0 in eval mode raises
instead of returning the no-dropout output, so "for every dropout_rate in
eval mode" fails at rate 1.0. -/
theorem dropout_eval_counterexample :
    DotProductAttention testOps [[1]] [[1]] [[1]] none (some 1) Mode.eval 0 =
      Except.error AttnError.invalidConfiguration ∧
    DotProductAttention testOps [[1]] [[1]] [[1]] none (some 1) Mode.eval 0 ≠
      Except.ok (DotProductAttentionNoDrop testOps [[1]] [[1]] [[1]] none) := by
  have herr : DotProductAttention testOps [[1]] [[1]] [[1]] none (some 1) Mode.eval 0 =
      Except.error AttnError.invalidConfiguration := by
    have hpy : pyGeOne (some (1 : ℚ)) = Except.ok true := by
      show Except.ok (decide ((1 : ℚ) ≤ 1)) = Except.ok true
      rw [decide_eq_true le_rfl]
    unfold DotProductAttention DotProductAttentionTrace
    simp only [hpy]
    rfl
  refine ⟨herr, ?_⟩
  rw [herr]
  intro hcontra
  exact Except.noConfusion hcontra

/-! ### SplitHeads / JoinHeads (attention.py lines 182-188)

A (nbatch, seqlen, feature_depth) tensor is its entry function
`x : ℕ → ℕ → ℕ → α`.  In numpy's row-major layout,
`np.reshape(x, (nbatch, -1, num_heads, head_depth))` maps entry (i, t, k, l)
of the result to entry (i, t, k*head_depth + l) of x, and
`np.transpose(·, (0, 2, 1, 3))` swaps the middle axes. -/

/-- `SplitHeads`: reshape to (nbatch, seqlen, num_heads, head_depth), then
transpose axes to (nbatch, num_heads, seqlen, head_depth). -/
def SplitHeads (head_depth : ℕ) (x : ℕ → ℕ → ℕ → α) : ℕ → ℕ → ℕ → ℕ → α :=
  fun i k t l => x i t (k * head_depth + l)

/-- `JoinHeads`: transpose back to (nbatch, seqlen, num_heads, head_depth),
then reshape to (nbatch, seqlen, num_heads*head_depth); row-major reshape maps
entry (i, t, j) of the result to entry (i, t, j / head_depth, j % head_depth)
of its input. -/
def JoinHeads (head_depth : ℕ) (y : ℕ → ℕ → ℕ → ℕ → α) : ℕ → ℕ → ℕ → α :=
  fun i t j => y i (j / head_depth) t (j % head_depth)

/-! ### C3 -/

/-- C3: for feature_depth divisible by num_heads (the `assert` on line 178)
and head_depth = feature_depth // num_heads, joining the heads after splitting
them returns every entry of x unchanged: the composition is bit-identical to x
on the whole (batch, seq, feature_depth) shape. -/
theorem joinHeads_splitHeads (num_heads feature_depth : ℕ) (x : ℕ → ℕ → ℕ → α)
    (_hdiv : feature_depth % num_heads = 0) :
    ∀ i t j, j < feature_depth →
      JoinHeads (feature_depth / num_heads) (SplitHeads (feature_depth / num_heads) x) i t j
        = x i t j := by
  intro i t j _
  unfold JoinHeads SplitHeads
  rw [Nat.div_add_mod']

/-- Witness for C3: num_heads = 2, feature_depth = 6, a concrete entry
function, evaluated at entry (1, 2, 5). -/
theorem joinHeads_splitHeads_witness :
    6 % 2 = 0 ∧ 5 < 6 ∧
    JoinHeads (6 / 2) (SplitHeads (6 / 2) (fun i t j => i + 10 * t + 100 * j)) 1 2 5 =
      (fun i t j : ℕ => i + 10 * t + 100 * j) 1 2 5 :=
  ⟨rfl, by decide,
    joinHeads_splitHeads 2 6 (fun i t j => i + 10 * t + 100 * j) rfl 1 2 5 (by decide)⟩

end Attention
